import Mathlib

/-!
Shallow embedding of the `neural-net-rs` core: the dense matrix component
(`src/matrix/mod.rs`) and the feed-forward network component
(`src/neural_net/mod.rs`).

Modelling conventions:
* Rust `u32`/`u8` sizes and indices are modelled as `ℕ` (no claim under
  consideration exercises 32-bit overflow).
* Rust `f64` values are modelled as real numbers `ℝ` (idealised arithmetic).
* A Rust `Result<T, JsValue>` built from a string message is modelled as
  `Except String T`, keeping the exact message strings.
* A Rust panic (out-of-bounds slice index, `.unwrap()` on an error) is
  modelled as `none` in an `Option`-valued result.
-/

namespace NeuralNetRs

/-- Embedding of `struct Matrix`: `rows`, `cols` and the flat row-major
`data` buffer. -/
structure Matrix where
  rows : ℕ
  cols : ℕ
  data : List ℝ

/-- Embedding of `Matrix::new(rows, cols)`: a `rows`x`cols` matrix whose
buffer holds `rows * cols` zeros. -/
noncomputable def Matrix.new (rows cols : ℕ) : Matrix :=
  { rows, cols, data := List.replicate (rows * cols) 0 }

/-- Embedding of `Matrix::from(rows, cols, list)`: errors when
`rows * cols != list.len()`, otherwise starts from `Matrix::new(rows, cols)`
and writes `list[idx]` into `data[idx]` for each index in order. -/
noncomputable def Matrix.fromList (rows cols : ℕ) (list : List ℝ) : Except String Matrix :=
  if rows * cols ≠ list.length then
    .error "Length of list does not match `rows` x `cols`"
  else
    .ok { rows, cols,
          data := list.enum.foldl (fun d p => d.set p.1 p.2) (Matrix.new rows cols).data }

/-- Embedding of `Matrix::calc_idx(i, j) = (i * self.cols + j) as usize`. -/
def Matrix.calc_idx (m : Matrix) (i j : ℕ) : ℕ :=
  i * m.cols + j

/-- Embedding of `Matrix::get(row, col)` with the Rust panic on an
out-of-bounds buffer index made explicit: `none` models the panic of
`self.data[idx]`, `some` the returned value. -/
def Matrix.get? (m : Matrix) (row col : ℕ) : Option ℝ :=
  m.data[m.calc_idx row col]?

/-- The value read by `Matrix::get(row, col)` when the buffer index is in
bounds (every internal caller of `get` in the source only performs
in-bounds reads; the panic branch is captured by `Matrix.get?`). -/
def Matrix.get (m : Matrix) (row col : ℕ) : ℝ :=
  m.data.getD (m.calc_idx row col) 0

/-- Row-major traversal order of `Matrix::map`: the pairs `(i, j)` for
`i in 0..rows`, `j in 0..cols`. -/
def mapPairs (rows cols : ℕ) : List (ℕ × ℕ) :=
  (List.range rows).flatMap (fun i => (List.range cols).map (fun j => (i, j)))

/-- Embedding of `Matrix::map(cb)`: for each `(i, j)` in row-major order,
`data[idx] = cb(data[idx], i, j)` with `idx = calc_idx(i, j)`. (All indices
are in bounds whenever `data.length = rows * cols`, which every constructor
guarantees; `List.set`/`List.getD` are then exact models of the Rust
indexing.) -/
def Matrix.map (m : Matrix) (cb : ℝ → ℕ → ℕ → ℝ) : Matrix :=
  { m with
    data := (mapPairs m.rows m.cols).foldl
      (fun d ij =>
        d.set (m.calc_idx ij.1 ij.2) (cb (d.getD (m.calc_idx ij.1 ij.2) 0) ij.1 ij.2))
      m.data }

/-- Embedding of `Matrix::scale(num)`: `self.map(|val, _, _| val * num)`. -/
def Matrix.scale (m : Matrix) (num : ℝ) : Matrix :=
  m.map (fun val _ _ => val * num)

/-- Embedding of `Matrix::mult(a, b)`: errors when `a.cols() != b.rows()`,
otherwise maps over a zero matrix of shape `(a.rows, b.cols)`, computing at
`(row, col)` the sum over `k in 0..a.cols()` of
`a.get(row, k) * b.get(k, col)` by a left fold (ascending `k`). -/
noncomputable def Matrix.mult (a b : Matrix) : Except String Matrix :=
  if a.cols ≠ b.rows then
    .error "Error: columns of left-hand-side must match rows of right-hand-side"
  else
    .ok ((Matrix.new a.rows b.cols).map (fun _ row col =>
      (List.range a.cols).foldl (fun sum k => sum + a.get row k * b.get k col) 0))

namespace activation_func

/-- Embedding of `activation_func::sigmoid(x) = 1. / (1. + (-x).exp())`. -/
noncomputable def sigmoid (x : ℝ) : ℝ :=
  1 / (1 + Real.exp (-x))

/-- Embedding of `activation_func::dsigmoid(y) = y * (1. - y)`. -/
def dsigmoid (y : ℝ) : ℝ :=
  y * (1 - y)

end activation_func

/-- Embedding of `struct NeuralNet`. -/
structure NeuralNet where
  hidden_nodes : List ℕ
  hidden_weights : List Matrix
  learning_rate : ℝ
  bias : ℕ

/-- Embedding of `NeuralNet::new(input_nodes, hidden_nodes, output_nodes)`:
when hidden layers exist, one zero matrix `hidden[0] x input`, then for
`i in 1..hn_len` a zero matrix `hidden[i] x hidden[i-1]`, then a zero matrix
`output x hidden[hn_len-1]`; otherwise a single zero matrix
`output x input`. `learning_rate = 0.1`, `bias = 1`. -/
noncomputable def NeuralNet.new (input_nodes : ℕ) (hidden_nodes : List ℕ)
    (output_nodes : ℕ) : NeuralNet :=
  let hn_len := hidden_nodes.length
  let hidden_weights : List Matrix :=
    if 0 < hn_len then
      (Matrix.new (hidden_nodes.getD 0 0) input_nodes ::
        ((List.range hn_len).drop 1).map
          (fun i => Matrix.new (hidden_nodes.getD i 0) (hidden_nodes.getD (i - 1) 0))) ++
      [Matrix.new output_nodes (hidden_nodes.getD (hn_len - 1) 0)]
    else
      [Matrix.new output_nodes input_nodes]
  { learning_rate := 0.1, bias := 1, hidden_nodes, hidden_weights }

/-- The body of the `for weights in weights_iter` loop of
`NeuralNet::feed_forward`: multiply the weight matrix with the current
`hidden` column (`.unwrap()` modelled as `Option` bind), add the bias to
every element, apply sigmoid to every element. -/
noncomputable def ffStep (bias : ℕ) (hidden weights : Matrix) : Option Matrix := do
  let h ← (Matrix.mult weights hidden).toOption
  let h := h.map (fun v _ _ => v + (bias : ℝ))
  return h.map (fun v _ _ => activation_func.sigmoid v)

/-- Embedding of `NeuralNet::feed_forward(input_data)`. `none` models a
panic of one of the `.unwrap()` calls (an empty weight list or a dimension
mismatch in `Matrix::mult`); `Matrix::from(len, 1, input_data)` itself never
errors. The early `return` when `hidden_nodes` is empty and the loop over
the remaining weight matrices (via `ffStep`) follow the source line by
line. -/
noncomputable def NeuralNet.feed_forward (nn : NeuralNet) (input_data : List ℝ) :
    Option (List ℝ) := do
  let inputs ← (Matrix.fromList input_data.length 1 input_data).toOption
  let w0 ← nn.hidden_weights.head?
  let first ← (Matrix.mult w0 inputs).toOption
  let first := first.map (fun v _ _ => v + (nn.bias : ℝ))
  let first := first.map (fun v _ _ => activation_func.sigmoid v)
  if nn.hidden_nodes.length = 0 then
    return first.data
  let final ← (nn.hidden_weights.drop 1).foldlM (ffStep nn.bias) first
  return final.data

/-- A column matrix wrapping a flat vector, as `feed_forward` builds with
`Matrix::from(input_data.len(), 1, input_data)`. -/
def colMat (u : List ℝ) : Matrix :=
  { rows := u.length, cols := 1, data := u }

/-- Matrix-vector product as the spec describes the per-layer multiplication:
entry `i` is the sum over `k` of `w.Get(i, k) * u[k]`. -/
noncomputable def matVecSpec (w : Matrix) (u : List ℝ) : List ℝ :=
  (List.range w.rows).map (fun i => ∑ k ∈ Finset.range w.cols, w.get i k * u.getD k 0)

/-- One forward layer as the spec describes it: multiply the weight matrix by
the current activation vector, add the bias constant to every element, apply
the sigmoid activation elementwise. -/
noncomputable def layerSpec (bias : ℕ) (w : Matrix) (u : List ℝ) : List ℝ :=
  ((matVecSpec w u).map (fun x => x + (bias : ℝ))).map activation_func.sigmoid

/-- `ForwardPropagate` as the spec describes it: fold the layer step over the
weight matrices in order, starting from the input vector, and return the
final activation vector. -/
noncomputable def forwardPropagateSpec (nn : NeuralNet) (input : List ℝ) : List ℝ :=
  nn.hidden_weights.foldl (fun u w => layerSpec nn.bias w u) input

/-- The shape-compatibility chain for a weight-matrix sequence applied to a
column vector of length `n`: each matrix's column count matches the current
vector length, which the multiplication then turns into the matrix's row
count. -/
def colChain : List Matrix → ℕ → Prop
  | [], _ => True
  | w :: ws, n => w.cols = n ∧ colChain ws w.rows

/-- Concrete sample matrix (2x2, row-major data `[1, 2, 3, 4]`) used to
instantiate the general theorems. -/
noncomputable def m22 : Matrix :=
  { rows := 2, cols := 2, data := [1, 2, 3, 4] }

/-- Concrete 2x3 sample matrix from the spec's multiplication test case. -/
noncomputable def a23 : Matrix :=
  { rows := 2, cols := 3, data := [1, 2, 3, 4, 5, 6] }

/-- Concrete 3x2 sample matrix from the spec's multiplication test case. -/
noncomputable def b32 : Matrix :=
  { rows := 3, cols := 2, data := [7, 8, 9, 10, 11, 12] }

/-! ### Basic list lemmas -/

lemma foldl_set_length (f : List ℝ → ℕ × ℕ → ℝ) (idx : ℕ × ℕ → ℕ) :
    ∀ (l : List (ℕ × ℕ)) (d : List ℝ),
      (l.foldl (fun d ij => d.set (idx ij) (f d ij)) d).length = d.length := by
  intro l
  induction l with
  | nil => intro d; rfl
  | cons a l ih => intro d; rw [List.foldl_cons, ih, List.length_set]

lemma getD_append_cons (pre : List ℝ) (v : ℝ) (rest : List ℝ) (w : ℝ) :
    (pre ++ v :: rest).getD pre.length w = v := by
  induction pre with
  | nil => rfl
  | cons a pre ih => simpa using ih

lemma set_append_cons (pre : List ℝ) (v x : ℝ) (rest : List ℝ) :
    (pre ++ v :: rest).set pre.length x = pre ++ x :: rest := by
  induction pre with
  | nil => rfl
  | cons a pre ih =>
    simp only [List.cons_append, List.length_cons, List.set_cons_succ]
    rw [ih]

lemma map_range_getD (l : List ℝ) (g : ℝ → ℝ) :
    (List.range l.length).map (fun k => g (l.getD k 0)) = l.map g := by
  induction l with
  | nil => rfl
  | cons a l ih =>
    rw [List.length_cons, List.range_succ_eq_map, List.map_cons, List.map_map,
      List.map_cons, List.getD_cons_zero, ← ih]
    congr 1

lemma foldl_add_range (f : ℕ → ℝ) :
    ∀ n : ℕ, (List.range n).foldl (fun s k => s + f k) 0 = ∑ k ∈ Finset.range n, f k := by
  intro n
  induction n with
  | zero => simp
  | succ n ih => rw [List.range_succ, List.foldl_append, ih, Finset.sum_range_succ]; rfl

/-! ### Characterisation of `Matrix.fromList` -/

lemma enumFrom_foldl_set :
    ∀ (v pre rest : List ℝ), rest.length = v.length →
      (List.enumFrom pre.length v).foldl (fun d p => d.set p.1 p.2) (pre ++ rest)
        = pre ++ v := by
  intro v
  induction v with
  | nil =>
    intro pre rest h
    rw [List.length_eq_zero.mp h]
    rfl
  | cons x v ih =>
    intro pre rest h
    match rest, h with
    | r :: rest, h =>
      rw [List.enumFrom_cons, List.foldl_cons, set_append_cons]
      have hlen : (pre ++ [x]).length = pre.length + 1 := by simp
      have hrest : rest.length = v.length := by simpa using h
      have := ih (pre ++ [x]) rest hrest
      rw [hlen] at this
      simpa using this

lemma Matrix.fromList_ok (rows cols : ℕ) (v : List ℝ) (h : rows * cols = v.length) :
    Matrix.fromList rows cols v = .ok { rows, cols, data := v } := by
  rw [Matrix.fromList, if_neg (by simp [h])]
  have := enumFrom_foldl_set v [] (List.replicate (rows * cols) 0) (by simp [h])
  simp only [List.nil_append, List.length_nil] at this
  simp only [Matrix.new]
  rw [show List.enum v = List.enumFrom 0 v from rfl, this]

lemma Matrix.fromList_error (rows cols : ℕ) (v : List ℝ) (h : rows * cols ≠ v.length) :
    Matrix.fromList rows cols v
      = .error "Length of list does not match `rows` x `cols`" := by
  rw [Matrix.fromList, if_pos h]

/-! ### Characterisation of `Matrix.map` -/

lemma mapPairs_succ (r cols : ℕ) :
    mapPairs (r + 1) cols = mapPairs r cols ++ (List.range cols).map (fun j => (r, j)) := by
  simp [mapPairs, List.range_succ]

lemma Matrix.map_rows (m : Matrix) (cb : ℝ → ℕ → ℕ → ℝ) : (m.map cb).rows = m.rows := rfl

lemma Matrix.map_cols (m : Matrix) (cb : ℝ → ℕ → ℕ → ℝ) : (m.map cb).cols = m.cols := rfl

lemma Matrix.map_data_length (m : Matrix) (cb : ℝ → ℕ → ℕ → ℝ) :
    (m.map cb).data.length = m.data.length := by
  exact foldl_set_length _ _ _ _

lemma row_pass (cb : ℝ → ℕ → ℕ → ℝ) (cols i : ℕ) :
    ∀ (mid pre post : List ℝ) (js : ℕ), pre.length = i * cols + js →
      ((List.range mid.length).map (fun t => (i, js + t))).foldl
          (fun d ij =>
            d.set (ij.1 * cols + ij.2) (cb (d.getD (ij.1 * cols + ij.2) 0) ij.1 ij.2))
          (pre ++ mid ++ post)
        = pre ++ (List.range mid.length).map (fun t => cb (mid.getD t 0) i (js + t)) ++ post := by
  intro mid
  induction mid with
  | nil => intro pre post js h; rfl
  | cons v mid ih =>
    intro pre post js h
    rw [List.length_cons, List.range_succ_eq_map, List.map_cons, List.map_cons,
      List.foldl_cons]
    have hshift : ((fun t => (i, js + t)) ∘ Nat.succ) = (fun t => (i, js + 1 + t)) := by
      funext t
      simp only [Function.comp_apply]
      congr 1
      omega
    have hshift2 :
        ((fun t => cb ((v :: mid).getD t 0) i (js + t)) ∘ Nat.succ)
          = (fun t => cb (mid.getD t 0) i (js + 1 + t)) := by
      funext t
      simp only [Function.comp_apply, List.getD_cons_succ]
      congr 1
      omega
    rw [List.map_map, List.map_map, hshift, hshift2]
    have hsplit : pre ++ v :: mid ++ post = pre ++ v :: (mid ++ post) := by
      simp [List.append_assoc]
    rw [hsplit]
    have hidx : i * cols + (js + 0) = pre.length := by omega
    rw [hidx, getD_append_cons, set_append_cons]
    have hre : pre ++ cb v i (js + 0) :: (mid ++ post)
        = (pre ++ [cb v i (js + 0)]) ++ mid ++ post := by
      simp [List.append_assoc]
    rw [hre]
    rw [ih (pre ++ [cb v i (js + 0)]) post (js + 1) (by simp [h]; omega)]
    simp only [Nat.add_zero, List.getD_cons_zero]
    simp [List.append_assoc]

lemma mapPairs_foldl (cb : ℝ → ℕ → ℕ → ℝ) (cols : ℕ) :
    ∀ (r : ℕ) (d : List ℝ), r * cols ≤ d.length →
      (mapPairs r cols).foldl
          (fun d ij =>
            d.set (ij.1 * cols + ij.2) (cb (d.getD (ij.1 * cols + ij.2) 0) ij.1 ij.2))
          d
        = (List.range (r * cols)).map (fun k => cb (d.getD k 0) (k / cols) (k % cols))
            ++ d.drop (r * cols) := by
  intro r
  induction r with
  | zero => intro d _; simp [mapPairs]
  | succ r ih =>
    intro d hd
    rw [show (r + 1) * cols = r * cols + cols from by ring] at hd
    have hrc1 : r * cols + cols ≤ d.length := hd
    have hrc : r * cols ≤ d.length := by omega
    rw [mapPairs_succ, List.foldl_append, ih d hrc]
    set P : List ℝ :=
      (List.range (r * cols)).map (fun k => cb (d.getD k 0) (k / cols) (k % cols)) with hP
    have hPlen : P.length = r * cols := by simp [hP]
    set mid : List ℝ := (d.drop (r * cols)).take cols with hmid
    set post : List ℝ := d.drop (r * cols + cols) with hpost
    have hmidlen : mid.length = cols := by
      simp only [hmid, List.length_take, List.length_drop]
      omega
    have hdropsplit : d.drop (r * cols) = mid ++ post := by
      rw [hmid, hpost, ← List.drop_drop]
      exact (List.take_append_drop cols (d.drop (r * cols))).symm
    have hrow : (List.range cols).map (fun j => (r, j))
        = (List.range mid.length).map (fun t => (r, 0 + t)) := by
      rw [hmidlen]
      apply List.map_congr_left
      intro t _
      simp
    rw [hdropsplit, ← List.append_assoc, hrow]
    rw [row_pass cb cols r mid P post 0 (by omega)]
    have hcolpos : ∀ t ∈ List.range cols, 0 < cols := by
      intro t ht
      have := List.mem_range.mp ht
      omega
    have hrowvals : (List.range mid.length).map (fun t => cb (mid.getD t 0) r (0 + t))
        = (List.range cols).map
            (fun t => cb (d.getD (r * cols + t) 0) ((r * cols + t) / cols) ((r * cols + t) % cols)) := by
      rw [hmidlen]
      apply List.map_congr_left
      intro t ht
      have htc : t < cols := List.mem_range.mp ht
      have hgd : mid.getD t 0 = d.getD (r * cols + t) 0 := by
        rw [hmid, List.getD_eq_getElem?_getD, List.getD_eq_getElem?_getD,
          List.getElem?_take, if_pos htc, List.getElem?_drop]
      have hdiv : (r * cols + t) / cols = r := by
        rw [Nat.mul_comm r cols, Nat.mul_add_div (by omega), Nat.div_eq_of_lt htc]
        omega
      have hmod : (r * cols + t) % cols = t := by
        rw [Nat.mul_comm r cols, Nat.mul_add_mod, Nat.mod_eq_of_lt htc]
      rw [hgd, hdiv, hmod]
      simp
    rw [hrowvals]
    rw [show (r + 1) * cols = r * cols + cols from by ring]
    rw [List.range_add, List.map_append, List.map_map, List.append_assoc,
      List.append_assoc]
    congr 1

lemma Matrix.map_data (m : Matrix) (cb : ℝ → ℕ → ℕ → ℝ)
    (h : m.data.length = m.rows * m.cols) :
    (m.map cb).data
      = (List.range (m.rows * m.cols)).map
          (fun k => cb (m.data.getD k 0) (k / m.cols) (k % m.cols)) := by
  have key := mapPairs_foldl cb m.cols m.rows m.data (by omega)
  have : (m.map cb).data
      = (mapPairs m.rows m.cols).foldl
          (fun d ij =>
            d.set (ij.1 * m.cols + ij.2) (cb (d.getD (ij.1 * m.cols + ij.2) 0) ij.1 ij.2))
          m.data := rfl
  rw [this, key, ← h, List.drop_length, List.append_nil]

lemma Matrix.map_getD (m : Matrix) (cb : ℝ → ℕ → ℕ → ℝ)
    (h : m.data.length = m.rows * m.cols) (k : ℕ) (hk : k < m.rows * m.cols) :
    (m.map cb).data.getD k 0 = cb (m.data.getD k 0) (k / m.cols) (k % m.cols) := by
  rw [Matrix.map_data m cb h, List.getD_eq_getElem?_getD, List.getElem?_map,
    List.getElem?_range hk]
  rfl

/-! ### `Matrix.new`, `Matrix.mult` and column vectors -/

lemma Matrix.ext_mk {m n : Matrix} (hr : m.rows = n.rows) (hc : m.cols = n.cols)
    (hd : m.data = n.data) : m = n := by
  cases m; cases n; simp_all

lemma Matrix.new_rows (r c : ℕ) : (Matrix.new r c).rows = r := rfl

lemma Matrix.new_cols (r c : ℕ) : (Matrix.new r c).cols = c := rfl

lemma Matrix.new_data (r c : ℕ) : (Matrix.new r c).data = List.replicate (r * c) 0 := rfl

lemma Matrix.new_data_length (r c : ℕ) : (Matrix.new r c).data.length = r * c := by
  simp [Matrix.new]

lemma Matrix.new_getD (r c k : ℕ) : (Matrix.new r c).data.getD k 0 = 0 := by
  rw [Matrix.new_data, List.getD_eq_getElem?_getD]
  rcases lt_or_ge k (r * c) with h | h
  · rw [List.getElem?_replicate, if_pos h]
    rfl
  · rw [List.getElem?_eq_none (by simpa using h)]
    rfl

lemma Matrix.new_get (r c i j : ℕ) : (Matrix.new r c).get i j = 0 :=
  Matrix.new_getD r c _

lemma calcIdx_div {j c : ℕ} (i : ℕ) (hj : j < c) : (i * c + j) / c = i := by
  rw [Nat.mul_comm i c, Nat.mul_add_div (by omega), Nat.div_eq_of_lt hj]
  omega

lemma calcIdx_mod {j c : ℕ} (i : ℕ) (hj : j < c) : (i * c + j) % c = j := by
  rw [Nat.mul_comm i c, Nat.mul_add_mod, Nat.mod_eq_of_lt hj]

lemma Matrix.mult_error (a b : Matrix) (h : a.cols ≠ b.rows) :
    Matrix.mult a b
      = .error "Error: columns of left-hand-side must match rows of right-hand-side" := by
  rw [Matrix.mult, if_pos h]

lemma Matrix.mult_ok (a b : Matrix) (h : a.cols = b.rows) :
    Matrix.mult a b
      = .ok ((Matrix.new a.rows b.cols).map (fun _ row col =>
          (List.range a.cols).foldl (fun sum k => sum + a.get row k * b.get k col) 0)) := by
  rw [Matrix.mult, if_neg (by simp [h])]

lemma Matrix.mult_spec (a b : Matrix) (h : a.cols = b.rows) (m : Matrix)
    (hm : Matrix.mult a b = .ok m) :
    m.rows = a.rows ∧ m.cols = b.cols ∧ m.data.length = a.rows * b.cols ∧
      ∀ i j, i < a.rows → j < b.cols →
        m.data.getD (i * b.cols + j) 0
          = ∑ k ∈ Finset.range a.cols, a.get i k * b.get k j := by
  rw [Matrix.mult_ok a b h] at hm
  injection hm with hm
  subst hm
  refine ⟨rfl, rfl, ?_, ?_⟩
  · rw [Matrix.map_data_length, Matrix.new_data_length]
  · intro i j hi hj
    have hidx : i * b.cols + j < a.rows * b.cols := by
      have h1 : i * b.cols + j < (i + 1) * b.cols := by
        have : (i + 1) * b.cols = i * b.cols + b.cols := by ring
        omega
      have h2 : (i + 1) * b.cols ≤ a.rows * b.cols := Nat.mul_le_mul_right _ (by omega)
      omega
    rw [Matrix.map_getD _ _ (Matrix.new_data_length a.rows b.cols) _ hidx,
      Matrix.new_cols, calcIdx_div i hj, calcIdx_mod i hj, foldl_add_range]

lemma matVecSpec_length (w : Matrix) (u : List ℝ) : (matVecSpec w u).length = w.rows := by
  simp [matVecSpec]

lemma layerSpec_length (b : ℕ) (w : Matrix) (u : List ℝ) :
    (layerSpec b w u).length = w.rows := by
  simp [layerSpec, matVecSpec_length]

lemma colMat_rows (u : List ℝ) : (colMat u).rows = u.length := rfl

lemma colMat_cols (u : List ℝ) : (colMat u).cols = 1 := rfl

lemma colMat_data (u : List ℝ) : (colMat u).data = u := rfl

lemma colMat_get (u : List ℝ) (k : ℕ) : (colMat u).get k 0 = u.getD k 0 := by
  show u.getD (k * 1 + 0) 0 = u.getD k 0
  rw [Nat.mul_one, Nat.add_zero]

lemma Matrix.mult_colMat (w : Matrix) (u : List ℝ)
    (hw : w.data.length = w.rows * w.cols) (hc : w.cols = u.length) :
    Matrix.mult w (colMat u) = .ok (colMat (matVecSpec w u)) := by
  rw [Matrix.mult_ok w (colMat u) hc]
  congr 1
  apply Matrix.ext_mk
  · rw [Matrix.map_rows, Matrix.new_rows, colMat_rows, matVecSpec_length]
  · rw [Matrix.map_cols, Matrix.new_cols, colMat_cols, colMat_cols]
  · rw [Matrix.map_data _ _ (Matrix.new_data_length w.rows (colMat u).cols),
      Matrix.new_rows, Matrix.new_cols, colMat_data, colMat_cols, Nat.mul_one]
    show (List.range w.rows).map _ = matVecSpec w u
    rw [matVecSpec]
    apply List.map_congr_left
    intro i _
    rw [Nat.div_one, Nat.mod_one, foldl_add_range]
    apply Finset.sum_congr rfl
    intro k _
    rw [colMat_get]

lemma colMat_map (u : List ℝ) (f : ℝ → ℝ) :
    (colMat u).map (fun v _ _ => f v) = colMat (u.map f) := by
  apply Matrix.ext_mk
  · rw [Matrix.map_rows, colMat_rows, colMat_rows, List.length_map]
  · rw [Matrix.map_cols, colMat_cols, colMat_cols]
  · rw [Matrix.map_data _ _ (by rw [colMat_rows, colMat_cols, Nat.mul_one]; rfl),
      colMat_rows, colMat_cols, Nat.mul_one, colMat_data, colMat_data,
      map_range_getD]

lemma toOption_ok {α : Type} (a : α) :
    (Except.ok a : Except String α).toOption = some a := rfl

lemma layer_step (b : ℕ) (w : Matrix) (u : List ℝ)
    (hw : w.data.length = w.rows * w.cols) (hc : w.cols = u.length) :
    ffStep b (colMat u) w = some (colMat (layerSpec b w u)) := by
  rw [ffStep, Matrix.mult_colMat w u hw hc]
  show some _ = some _
  rw [colMat_map, colMat_map]
  rfl

lemma foldlM_layers (b : ℕ) :
    ∀ (ws : List Matrix) (u : List ℝ),
      (∀ w ∈ ws, w.data.length = w.rows * w.cols) →
      colChain ws u.length →
      (ws.foldlM (ffStep b) (colMat u) : Option Matrix)
        = some (colMat (ws.foldl (fun x w => layerSpec b w x) u)) := by
  intro ws
  induction ws with
  | nil => intro u _ _; rfl
  | cons w ws ih =>
    intro u hinv hchain
    rw [List.foldlM_cons, layer_step b w u (hinv w (by simp)) hchain.1]
    show (ws.foldlM _ (colMat (layerSpec b w u)) : Option Matrix) = _
    rw [ih (layerSpec b w u) (fun x hx => hinv x (by simp [hx]))
      (by rw [layerSpec_length]; exact hchain.2)]
    rfl

/-! ### Structure of `NeuralNet.new` -/

lemma range_drop_one (n : ℕ) : (List.range (n + 1)).drop 1 = (List.range n).map Nat.succ := by
  rw [List.range_succ_eq_map]
  rfl

lemma zip_weights_aux (outS : ℕ) :
    ∀ (t : List ℕ) (h0 : ℕ),
      ((List.range t.length).map
          (fun i => Matrix.new ((h0 :: t).getD (i + 1) 0) ((h0 :: t).getD i 0)))
        ++ [Matrix.new outS ((h0 :: t).getD t.length 0)]
      = ((t ++ [outS]).zip (h0 :: t)).map (fun p => Matrix.new p.1 p.2) := by
  intro t
  induction t with
  | nil => intro h0; rfl
  | cons t0 t ih =>
    intro h0
    rw [List.length_cons, List.range_succ_eq_map, List.map_cons, List.map_map]
    simp only [List.getD_cons_zero, List.getD_cons_succ, List.cons_append,
      List.zip_cons_cons, List.map_cons]
    rw [← ih t0]
    rfl

lemma NeuralNet.new_weights (inS outS : ℕ) (hs : List ℕ) :
    (NeuralNet.new inS hs outS).hidden_weights
      = ((hs ++ [outS]).zip (inS :: hs)).map (fun p => Matrix.new p.1 p.2) := by
  cases hs with
  | nil => rfl
  | cons h0 t =>
    simp only [NeuralNet.new]
    rw [if_pos (by simp)]
    rw [List.length_cons, range_drop_one, List.map_map]
    simp only [List.cons_append, List.zip_cons_cons, List.map_cons]
    rw [← zip_weights_aux outS t h0]
    rfl

lemma NeuralNet.new_hidden_nodes (inS outS : ℕ) (hs : List ℕ) :
    (NeuralNet.new inS hs outS).hidden_nodes = hs := rfl

lemma NeuralNet.new_bias (inS outS : ℕ) (hs : List ℕ) :
    (NeuralNet.new inS hs outS).bias = 1 := rfl

lemma NeuralNet.new_weights_length (inS outS : ℕ) (hs : List ℕ) :
    (NeuralNet.new inS hs outS).hidden_weights.length = hs.length + 1 := by
  rw [NeuralNet.new_weights]
  simp [List.length_zip]

lemma NeuralNet.new_weights_inv (inS outS : ℕ) (hs : List ℕ) :
    ∀ w ∈ (NeuralNet.new inS hs outS).hidden_weights,
      w.data.length = w.rows * w.cols := by
  rw [NeuralNet.new_weights]
  intro w hw
  rcases List.mem_map.mp hw with ⟨p, _, rfl⟩
  rw [Matrix.new_data_length]
  rfl

lemma zip_chain (outS : ℕ) :
    ∀ (hs : List ℕ) (inS : ℕ),
      colChain (((hs ++ [outS]).zip (inS :: hs)).map (fun p => Matrix.new p.1 p.2)) inS := by
  intro hs
  induction hs with
  | nil => intro inS; exact ⟨rfl, trivial⟩
  | cons h0 t ih =>
    intro inS
    simp only [List.cons_append, List.zip_cons_cons, List.map_cons]
    exact ⟨rfl, ih h0⟩

lemma zip_foldl_length (b outS : ℕ) :
    ∀ (hs : List ℕ) (inS : ℕ) (u : List ℝ), u.length = inS →
      ((((hs ++ [outS]).zip (inS :: hs)).map (fun p => Matrix.new p.1 p.2)).foldl
          (fun x w => layerSpec b w x) u).length = outS := by
  intro hs
  induction hs with
  | nil =>
    intro inS u _
    rw [List.nil_append, List.zip_cons_cons, List.map_cons, List.foldl_cons]
    show (layerSpec b (Matrix.new outS inS) u).length = outS
    rw [layerSpec_length, Matrix.new_rows]
  | cons h0 t ih =>
    intro inS u _
    simp only [List.cons_append, List.zip_cons_cons, List.map_cons, List.foldl_cons]
    exact ih h0 (layerSpec b (Matrix.new h0 inS) u)
      (by rw [layerSpec_length, Matrix.new_rows])

/-! ### Characterisation of `NeuralNet.feed_forward` -/

lemma feed_forward_char (nn : NeuralNet) (v : List ℝ) (w0 : Matrix) (rest : List Matrix)
    (hW : nn.hidden_weights = w0 :: rest)
    (hinv : ∀ w ∈ nn.hidden_weights, w.data.length = w.rows * w.cols)
    (hchain : colChain nn.hidden_weights v.length)
    (hhn : nn.hidden_nodes = [] → rest = []) :
    nn.feed_forward v = some (forwardPropagateSpec nn v) := by
  rw [hW] at hinv hchain
  have hw0 : w0.data.length = w0.rows * w0.cols := hinv w0 (by simp)
  have hc0 : w0.cols = v.length := hchain.1
  have hfrom : Matrix.fromList v.length 1 v = .ok (colMat v) :=
    Matrix.fromList_ok v.length 1 v (Nat.mul_one _)
  rw [NeuralNet.feed_forward, hfrom, hW, toOption_ok]
  simp only [List.head?_cons, Option.pure_def, Option.bind_eq_bind, Option.some_bind]
  rw [Matrix.mult_colMat w0 v hw0 hc0, toOption_ok]
  simp only [Option.some_bind]
  rw [colMat_map, colMat_map]
  rw [forwardPropagateSpec, hW, List.foldl_cons]
  by_cases hn : nn.hidden_nodes = []
  · rw [hn, hhn hn]
    simp [colMat_data, layerSpec]
  · rw [if_neg (by simpa using hn)]
    show ((rest.foldlM (ffStep nn.bias) (colMat (((matVecSpec w0 v).map
        (fun x => x + (nn.bias : ℝ))).map activation_func.sigmoid)) :
        Option Matrix).bind _) = _
    rw [show (((matVecSpec w0 v).map (fun x => x + (nn.bias : ℝ))).map
        activation_func.sigmoid) = layerSpec nn.bias w0 v from rfl]
    rw [foldlM_layers nn.bias rest (layerSpec nn.bias w0 v)
      (fun x hx => hinv x (by simp [hx]))
      (by rw [layerSpec_length]; exact hchain.2)]
    rfl

lemma new_weights_head (inS outS : ℕ) (hs : List ℕ) :
    ∃ w0 rest, (NeuralNet.new inS hs outS).hidden_weights = w0 :: rest
      ∧ w0.cols = inS := by
  rw [NeuralNet.new_weights]
  cases hs with
  | nil => exact ⟨_, _, rfl, rfl⟩
  | cons h0 t =>
    simp only [List.cons_append, List.zip_cons_cons, List.map_cons]
    exact ⟨_, _, rfl, rfl⟩

lemma feed_forward_new (inS outS : ℕ) (hs : List ℕ) (v : List ℝ)
    (hv : v.length = inS) :
    (NeuralNet.new inS hs outS).feed_forward v
      = some (forwardPropagateSpec (NeuralNet.new inS hs outS) v) := by
  obtain ⟨w0, rest, hW, _⟩ := new_weights_head inS outS hs
  apply feed_forward_char _ _ w0 rest hW (NeuralNet.new_weights_inv inS outS hs)
  · rw [NeuralNet.new_weights, hv]
    exact zip_chain outS hs inS
  · intro hn
    rw [NeuralNet.new_hidden_nodes] at hn
    have hlen := NeuralNet.new_weights_length inS outS hs
    rw [hW, hn] at hlen
    simpa using hlen

lemma forwardPropagateSpec_new_length (inS outS : ℕ) (hs : List ℕ) (v : List ℝ)
    (hv : v.length = inS) :
    (forwardPropagateSpec (NeuralNet.new inS hs outS) v).length = outS := by
  rw [forwardPropagateSpec, NeuralNet.new_weights, NeuralNet.new_bias]
  exact zip_foldl_length 1 outS hs inS v hv

/-! ### Remaining helpers -/

lemma idx_lt_of_lt {row col rows cols : ℕ} (hr : row < rows) (hc : col < cols) :
    row * cols + col < rows * cols := by
  have h2 : (row + 1) * cols = row * cols + cols := by ring
  have h1 : (row + 1) * cols ≤ rows * cols := Nat.mul_le_mul_right _ (by omega)
  omega

lemma map_mul_zero (l : List ℝ) : l.map (fun x => x * 0) = List.replicate l.length 0 := by
  refine List.eq_replicate_iff.mpr ⟨by simp, ?_⟩
  intro b hb
  rcases List.mem_map.mp hb with ⟨x, _, rfl⟩
  exact mul_zero x

lemma matVecSpec_zero (r c : ℕ) (u : List ℝ) :
    matVecSpec (Matrix.new r c) u = List.replicate r 0 := by
  rw [matVecSpec, Matrix.new_rows, Matrix.new_cols]
  have hz : ∀ i ∈ List.range r,
      (∑ k ∈ Finset.range c, (Matrix.new r c).get i k * u.getD k 0) = (0 : ℝ) := by
    intro i _
    refine Finset.sum_eq_zero ?_
    intro k _
    rw [Matrix.new_get, zero_mul]
  rw [List.map_congr_left hz, show (fun _ => (0:ℝ)) = Function.const ℕ (0:ℝ) from rfl,
    List.map_const, List.length_range]

lemma layerSpec_zero (b r c : ℕ) (u : List ℝ) :
    layerSpec b (Matrix.new r c) u
      = List.replicate r (activation_func.sigmoid (0 + (b : ℝ))) := by
  rw [layerSpec, matVecSpec_zero, List.map_replicate, List.map_replicate]

lemma forwardPropagateSpec_new_indep (inS outS : ℕ) (hs : List ℕ) (x y : List ℝ) :
    forwardPropagateSpec (NeuralNet.new inS hs outS) x
      = forwardPropagateSpec (NeuralNet.new inS hs outS) y := by
  rw [forwardPropagateSpec, forwardPropagateSpec, NeuralNet.new_weights,
    NeuralNet.new_bias]
  cases hs with
  | nil =>
    simp only [List.nil_append, List.zip_cons_cons, List.zip_nil_right,
      List.map_cons, List.map_nil, List.foldl_cons, List.foldl_nil]
    rw [layerSpec_zero, layerSpec_zero]
  | cons h0 t =>
    simp only [List.cons_append, List.zip_cons_cons, List.map_cons, List.foldl_cons]
    rw [layerSpec_zero, layerSpec_zero]

/-! ### Claim C1 -/

/-- C1 (counterexample to the claim as stated): `Matrix::from(2, 2, [1,2,3,4])`
succeeds, the resulting matrix has `cols = 2`, and `get(0, 2)` — whose column
index `2` is `≥ cols` — does **not** fail: it returns `data[0*2+2] = 3`,
silently aliasing into row 1. -/
theorem C1_counterexample :
    (Matrix.fromList 2 2 [1, 2, 3, 4]).toOption.map
        (fun m => (m.rows, m.cols, m.get? 0 2))
      = some (2, 2, some 3) := rfl

/-- C1 (amended): for a matrix with `data.length = rows * cols`, `get(row, col)`
fails (panics on the buffer index) exactly when `row * cols + col ≥ rows * cols`
— not whenever `row ≥ rows` or `col ≥ cols` — and for `row < rows` and
`col < cols` it returns the stored element at `data[row * cols + col]`. -/
theorem C1_get_amended (m : Matrix) (h : m.data.length = m.rows * m.cols)
    (row col : ℕ) :
    (m.get? row col = none ↔ m.rows * m.cols ≤ row * m.cols + col)
      ∧ (row < m.rows → col < m.cols →
          m.get? row col = some (m.data.getD (row * m.cols + col) 0)) := by
  constructor
  · rw [Matrix.get?, Matrix.calc_idx, List.getElem?_eq_none_iff, h]
  · intro hr hc
    have hidx : row * m.cols + col < m.data.length := by
      rw [h]
      exact idx_lt_of_lt hr hc
    rw [Matrix.get?, Matrix.calc_idx, List.getElem?_eq_getElem hidx,
      List.getD_eq_getElem?_getD, List.getElem?_eq_getElem hidx]
    rfl

/-- Witness for C1: instantiates the amended theorem on the concrete 2x2
matrix `m22` at position `(1, 1)`. -/
theorem C1_get_amended_witness :
    (m22.data.length = m22.rows * m22.cols)
      ∧ ((m22.get? 1 1 = none ↔ m22.rows * m22.cols ≤ 1 * m22.cols + 1)
          ∧ (1 < m22.rows → 1 < m22.cols →
              m22.get? 1 1 = some (m22.data.getD (1 * m22.cols + 1) 0))) :=
  ⟨rfl, C1_get_amended m22 rfl 1 1⟩

/-! ### Claim C9 -/

/-- C9: with `data.length = rows * cols`, `get(row, col)` succeeds and returns
`data[row * cols + col]` whenever that flat index is below `rows * cols`,
even when `col ≥ cols` (the access aliases into a later row), and it panics
(`none`) exactly when `row * cols + col ≥ rows * cols`. -/
theorem C9_get_flat_index (m : Matrix) (h : m.data.length = m.rows * m.cols)
    (row col : ℕ) :
    (row * m.cols + col < m.rows * m.cols →
        m.get? row col = some (m.data.getD (row * m.cols + col) 0))
      ∧ (m.get? row col = none ↔ row * m.cols + col ≥ m.rows * m.cols) := by
  constructor
  · intro hlt
    have hidx : row * m.cols + col < m.data.length := by omega
    rw [Matrix.get?, Matrix.calc_idx, List.getElem?_eq_getElem hidx,
      List.getD_eq_getElem?_getD, List.getElem?_eq_getElem hidx]
    rfl
  · rw [Matrix.get?, Matrix.calc_idx, List.getElem?_eq_none_iff, h]

/-- Witness for C9: on the concrete 2x2 matrix `m22`, the out-of-column access
`get(0, 2)` has flat index `2 < 4`, so it succeeds and returns `data[2] = 3`
(checked concretely by `rfl`). -/
theorem C9_get_flat_index_witness :
    (m22.data.length = m22.rows * m22.cols)
      ∧ ((0 * m22.cols + 2 < m22.rows * m22.cols →
            m22.get? 0 2 = some (m22.data.getD (0 * m22.cols + 2) 0))
          ∧ (m22.get? 0 2 = none ↔ 0 * m22.cols + 2 ≥ m22.rows * m22.cols))
      ∧ m22.get? 0 2 = some 3 :=
  ⟨rfl, C9_get_flat_index m22 rfl 0 2, rfl⟩

/-! ### Claim C4 -/

/-- C4: `Matrix::from(rows, cols, v)` fails with the shape-mismatch error if
and only if `v.length ≠ rows * cols`; on success the matrix keeps the given
dimensions and its flat buffer equals `v` (round-trip identity, values stored
in row-major order with `v[k]` at `data[k]`). -/
theorem C4_fromList_roundtrip (rows cols : ℕ) (v : List ℝ) :
    ((∃ e, Matrix.fromList rows cols v = .error e) ↔ v.length ≠ rows * cols)
      ∧ (∀ m, Matrix.fromList rows cols v = .ok m →
          m.rows = rows ∧ m.cols = cols ∧ m.data = v) := by
  by_cases h : rows * cols = v.length
  · rw [Matrix.fromList_ok rows cols v h]
    constructor
    · constructor
      · rintro ⟨e, he⟩
        cases he
      · intro hne
        exact absurd h.symm hne
    · intro m hm
      injection hm with hm
      subst hm
      exact ⟨rfl, rfl, rfl⟩
  · rw [Matrix.fromList_error rows cols v h]
    constructor
    · constructor
      · intro _
        exact fun he => h he.symm
      · intro _
        exact ⟨_, rfl⟩
    · intro m hm
      cases hm

/-- Witness for C4: instantiates the theorem at `rows = 2`, `cols = 3`,
`v = [1, 2, 3, 4, 5, 6]`. -/
theorem C4_fromList_roundtrip_witness :
    ((∃ e, Matrix.fromList 2 3 [1, 2, 3, 4, 5, 6] = .error e)
        ↔ ([1, 2, 3, 4, 5, 6] : List ℝ).length ≠ 2 * 3)
      ∧ (∀ m, Matrix.fromList 2 3 [1, 2, 3, 4, 5, 6] = .ok m →
          m.rows = 2 ∧ m.cols = 3 ∧ m.data = [1, 2, 3, 4, 5, 6]) :=
  C4_fromList_roundtrip 2 3 [1, 2, 3, 4, 5, 6]

/-! ### Claim C3 -/

/-- C3: `Matrix::mult(a, b)` fails with the dimension-mismatch error if and
only if `a.cols ≠ b.rows`; on success the result has shape
`(a.rows, b.cols)` and element `(i, j)` equals the sum over `k < a.cols` of
`a.get(i, k) * b.get(k, j)` (the code accumulates it by a left fold in
ascending `k`, which over the reals is exactly this sum). -/
theorem C3_mult_product (a b : Matrix) :
    ((∃ e, Matrix.mult a b = .error e) ↔ a.cols ≠ b.rows)
      ∧ (∀ m, Matrix.mult a b = .ok m →
          m.rows = a.rows ∧ m.cols = b.cols ∧
            ∀ i j, i < a.rows → j < b.cols →
              m.get i j = ∑ k ∈ Finset.range a.cols, a.get i k * b.get k j) := by
  by_cases h : a.cols = b.rows
  · constructor
    · rw [Matrix.mult_ok a b h]
      constructor
      · rintro ⟨e, he⟩
        cases he
      · intro hne
        exact absurd h hne
    · intro m hm
      obtain ⟨h1, h2, _, h4⟩ := Matrix.mult_spec a b h m hm
      refine ⟨h1, h2, ?_⟩
      intro i j hi hj
      show m.data.getD (m.calc_idx i j) 0 = _
      rw [Matrix.calc_idx, h2]
      exact h4 i j hi hj
  · constructor
    · rw [Matrix.mult_error a b h]
      exact ⟨fun _ => h, fun _ => ⟨_, rfl⟩⟩
    · intro m hm
      rw [Matrix.mult_error a b h] at hm
      cases hm

/-- Witness for C3: instantiates the theorem on the spec's literal test
matrices `a23` (2x3) and `b32` (3x2). -/
theorem C3_mult_product_witness :
    ((∃ e, Matrix.mult a23 b32 = .error e) ↔ a23.cols ≠ b32.rows)
      ∧ (∀ m, Matrix.mult a23 b32 = .ok m →
          m.rows = a23.rows ∧ m.cols = b32.cols ∧
            ∀ i j, i < a23.rows → j < b32.cols →
              m.get i j = ∑ k ∈ Finset.range a23.cols, a23.get i k * b32.get k j) :=
  C3_mult_product a23 b32

/-! ### Claim C6 -/

/-- C6: every operation preserves `data.length = rows * cols`: `new` allocates
exactly `rows * cols` zeros, a successful `from` yields an invariant-satisfying
matrix, `map` and `scale` keep the dimensions and never truncate or pad the
buffer, and a successful `mult` yields an invariant-satisfying matrix. -/
theorem C6_length_invariant :
    (∀ r c, (Matrix.new r c).data.length = r * c)
      ∧ (∀ r c v m, Matrix.fromList r c v = .ok m →
          m.data.length = m.rows * m.cols)
      ∧ (∀ (m : Matrix) cb, (m.map cb).rows = m.rows ∧ (m.map cb).cols = m.cols
          ∧ (m.map cb).data.length = m.data.length)
      ∧ (∀ (m : Matrix) (k : ℝ), (m.scale k).rows = m.rows
          ∧ (m.scale k).cols = m.cols ∧ (m.scale k).data.length = m.data.length)
      ∧ (∀ a b m, Matrix.mult a b = .ok m → m.data.length = m.rows * m.cols) := by
  refine ⟨Matrix.new_data_length, ?_, ?_, ?_, ?_⟩
  · intro r c v m hm
    by_cases h : r * c = v.length
    · rw [Matrix.fromList_ok r c v h] at hm
      injection hm with hm
      subst hm
      exact h.symm
    · rw [Matrix.fromList_error r c v h] at hm
      cases hm
  · intro m cb
    exact ⟨rfl, rfl, Matrix.map_data_length m cb⟩
  · intro m k
    exact ⟨rfl, rfl, Matrix.map_data_length m _⟩
  · intro a b m hm
    by_cases h : a.cols = b.rows
    · obtain ⟨h1, h2, h3, _⟩ := Matrix.mult_spec a b h m hm
      rw [h3, h1, h2]
    · rw [Matrix.mult_error a b h] at hm
      cases hm

/-- Witness for C6: concrete instances of each conjunct — a fresh 2x3 matrix
has 6 buffer entries, and scaling `m22` keeps its 4 entries. -/
theorem C6_length_invariant_witness :
    ((Matrix.new 2 3).data.length = 2 * 3)
      ∧ ((m22.scale 5).data.length = m22.data.length) :=
  ⟨C6_length_invariant.1 2 3, (C6_length_invariant.2.2.2.1 m22 5).2.2⟩

/-! ### Claim C7 -/

/-- C7: `scale(k)` is definitionally `map (fun v _ _ => v * k)`; under the
length invariant the buffer afterwards is the original buffer multiplied
elementwise by `k`, `scale(1)` leaves the matrix unchanged, and `scale(0)`
zeroes every element. -/
theorem C7_scale_transform (m : Matrix) (k : ℝ)
    (h : m.data.length = m.rows * m.cols) :
    m.scale k = m.map (fun v _ _ => v * k)
      ∧ (m.scale k).data = m.data.map (fun x => x * k)
      ∧ m.scale 1 = m
      ∧ (m.scale 0).data = List.replicate m.data.length 0 := by
  have hdata : ∀ q : ℝ, (m.scale q).data = m.data.map (fun x => x * q) := by
    intro q
    show (m.map _).data = _
    rw [Matrix.map_data _ _ h, ← h]
    exact map_range_getD m.data (fun x => x * q)
  refine ⟨rfl, hdata k, ?_, ?_⟩
  · refine Matrix.ext_mk rfl rfl ?_
    rw [hdata 1, List.map_congr_left (fun x _ => mul_one x)]
    simp
  · rw [hdata 0, map_mul_zero]

/-- Witness for C7: instantiates the theorem on the concrete matrix `m22`
with factor `5`. -/
theorem C7_scale_transform_witness :
    (m22.data.length = m22.rows * m22.cols)
      ∧ (m22.scale 5 = m22.map (fun v _ _ => v * 5)
          ∧ (m22.scale 5).data = m22.data.map (fun x => x * 5)
          ∧ m22.scale 1 = m22
          ∧ (m22.scale 0).data = List.replicate m22.data.length 0) :=
  ⟨rfl, C7_scale_transform m22 5 rfl⟩

/-- Sanity check of the embedded multiplication on the spec's literal case:
`[[1,2,3],[4,5,6]] * [[7,8],[9,10],[11,12]]` has entries 58, 64, 139, 154. -/
lemma mult_literal_case : ∀ m, Matrix.mult a23 b32 = .ok m →
    m.get 0 0 = 58 ∧ m.get 0 1 = 64 ∧ m.get 1 0 = 139 ∧ m.get 1 1 = 154 := by
  intro m hm
  have h4 := (Matrix.mult_spec a23 b32 rfl m hm).2.2.2
  have e00 := h4 0 0 (by decide) (by decide)
  have e01 := h4 0 1 (by decide) (by decide)
  have e10 := h4 1 0 (by decide) (by decide)
  have e11 := h4 1 1 (by decide) (by decide)
  have hcols : m.cols = b32.cols := (Matrix.mult_spec a23 b32 rfl m hm).2.1
  refine ⟨?_, ?_, ?_, ?_⟩ <;>
    · show m.data.getD (m.calc_idx _ _) 0 = _
      rw [Matrix.calc_idx, hcols]
      simp only [a23, b32] at e00 e01 e10 e11 ⊢
      norm_num [Finset.sum_range_succ, Matrix.get, Matrix.calc_idx] at e00 e01 e10 e11 ⊢
      first
        | exact e00 | exact e01 | exact e10 | exact e11

/-! ### Claim C5 -/

/-- C5: a network built from `(inS, hs, outS)` with positive sizes owns
`hs.length + 1` weight matrices whose shape list is exactly
`(hs ++ [outS]).zip (inS :: hs)` — i.e. `hs[0] × inS` first (or `outS × inS`
when `hs` is empty), `hs[k] × hs[k-1]` in between, `outS × hs.last` at the
end — and every weight matrix is zero-filled. -/
theorem C5_topology (inS outS : ℕ) (hs : List ℕ)
    (hin : 0 < inS) (hhs : ∀ h ∈ hs, 0 < h) (hout : 0 < outS) :
    (NeuralNet.new inS hs outS).hidden_weights.length = hs.length + 1
      ∧ (NeuralNet.new inS hs outS).hidden_weights.map (fun w => (w.rows, w.cols))
          = (hs ++ [outS]).zip (inS :: hs)
      ∧ ∀ w ∈ (NeuralNet.new inS hs outS).hidden_weights,
          w.data = List.replicate (w.rows * w.cols) 0 := by
  refine ⟨NeuralNet.new_weights_length inS outS hs, ?_, ?_⟩
  · rw [NeuralNet.new_weights, List.map_map]
    have hid : ∀ p ∈ (hs ++ [outS]).zip (inS :: hs),
        ((fun w : Matrix => (w.rows, w.cols)) ∘ (fun p : ℕ × ℕ => Matrix.new p.1 p.2)) p
          = p := fun p _ => rfl
    rw [List.map_congr_left hid]
    simp
  · rw [NeuralNet.new_weights]
    intro w hw
    rcases List.mem_map.mp hw with ⟨p, _, rfl⟩
    rfl

/-- Witness for C5: instantiates the theorem on the spec's topology law
`(inS, hs, outS) = (2, [3,4,5], 2)`; the shape list evaluates to
`[(3,2), (4,3), (5,4), (2,5)]`. -/
theorem C5_topology_witness :
    ((0 < 2) ∧ (∀ h ∈ ([3, 4, 5] : List ℕ), 0 < h) ∧ (0 < 2))
      ∧ ((NeuralNet.new 2 [3, 4, 5] 2).hidden_weights.length = [3, 4, 5].length + 1
          ∧ (NeuralNet.new 2 [3, 4, 5] 2).hidden_weights.map (fun w => (w.rows, w.cols))
              = ([3, 4, 5] ++ [2]).zip (2 :: [3, 4, 5])
          ∧ ∀ w ∈ (NeuralNet.new 2 [3, 4, 5] 2).hidden_weights,
              w.data = List.replicate (w.rows * w.cols) 0)
      ∧ ([3, 4, 5] ++ [2]).zip (2 :: [3, 4, 5]) = [(3, 2), (4, 3), (5, 4), (2, 5)] :=
  ⟨⟨by decide, by decide, by decide⟩,
    C5_topology 2 2 [3, 4, 5] (by decide) (by decide) (by decide), rfl⟩

/-! ### Claim C2 -/

/-- C2: for a network built from positive sizes and an input of length `inS`,
`feed_forward` succeeds and returns exactly the spec's pipeline
(`forwardPropagateSpec`): wrap the input as a column, then for each weight
matrix in order multiply, add the bias to every element and apply sigmoid
elementwise, returning the final column's flat data; any returned output has
length `outS`. -/
theorem C2_feed_forward_pipeline (inS outS : ℕ) (hs : List ℕ) (input : List ℝ)
    (hin : 0 < inS) (hhs : ∀ h ∈ hs, 0 < h) (hout : 0 < outS)
    (hlen : input.length = inS) :
    (NeuralNet.new inS hs outS).feed_forward input
        = some (forwardPropagateSpec (NeuralNet.new inS hs outS) input)
      ∧ ∀ out, (NeuralNet.new inS hs outS).feed_forward input = some out →
          out.length = outS := by
  refine ⟨feed_forward_new inS outS hs input hlen, ?_⟩
  intro out hout'
  rw [feed_forward_new inS outS hs input hlen] at hout'
  injection hout' with hout'
  subst hout'
  exact forwardPropagateSpec_new_length inS outS hs input hlen

/-- Witness for C2: instantiates the theorem on the network `(2, [3], 1)` with
input `[1, 2]`. -/
theorem C2_feed_forward_pipeline_witness :
    ((0 < 2) ∧ (∀ h ∈ ([3] : List ℕ), 0 < h) ∧ (0 < 1)
        ∧ ([1, 2] : List ℝ).length = 2)
      ∧ ((NeuralNet.new 2 [3] 1).feed_forward [1, 2]
            = some (forwardPropagateSpec (NeuralNet.new 2 [3] 1) [1, 2])
          ∧ ∀ out, (NeuralNet.new 2 [3] 1).feed_forward [1, 2] = some out →
              out.length = 1) :=
  ⟨⟨by decide, by decide, by decide, rfl⟩,
    C2_feed_forward_pipeline 2 1 [3] [1, 2] (by decide) (by decide) (by decide) rfl⟩

/-! ### Claim C8 -/

/-- C8: on a freshly constructed network (all weight matrices zero-filled),
`feed_forward` is deterministic — the same input always yields the same
output — and the output does not depend on the input values: any two inputs
of the declared length produce equal outputs. -/
theorem C8_zero_weights_independence (inS outS : ℕ) (hs : List ℕ) (x y : List ℝ)
    (hx : x.length = inS) (hy : y.length = inS) :
    (NeuralNet.new inS hs outS).feed_forward x
        = (NeuralNet.new inS hs outS).feed_forward x
      ∧ (NeuralNet.new inS hs outS).feed_forward x
          = (NeuralNet.new inS hs outS).feed_forward y := by
  refine ⟨rfl, ?_⟩
  rw [feed_forward_new inS outS hs x hx, feed_forward_new inS outS hs y hy,
    forwardPropagateSpec_new_indep inS outS hs x y]

/-- Witness for C8: instantiates the theorem on the network `(2, [3], 1)` with
the two different inputs `[1, 2]` and `[30, 40]`. -/
theorem C8_zero_weights_independence_witness :
    (([1, 2] : List ℝ).length = 2 ∧ ([30, 40] : List ℝ).length = 2)
      ∧ ((NeuralNet.new 2 [3] 1).feed_forward [1, 2]
            = (NeuralNet.new 2 [3] 1).feed_forward [1, 2]
          ∧ (NeuralNet.new 2 [3] 1).feed_forward [1, 2]
              = (NeuralNet.new 2 [3] 1).feed_forward [30, 40]) :=
  ⟨⟨rfl, rfl⟩, C8_zero_weights_independence 2 1 [3] [1, 2] [30, 40] rfl rfl⟩

/-! ### Claim C10 -/

/-- C10: for a network built from positive sizes, when the input length equals
`inS` every internal `.unwrap()` of `feed_forward` succeeds (the error
branches of `Matrix::from` and `Matrix::mult` are unreachable and some output
is returned); when the input length differs, `feed_forward` panics at the
first matrix multiplication (modelled as `none`) instead of returning a typed
error. -/
theorem C10_unwrap_safety (inS outS : ℕ) (hs : List ℕ) (input : List ℝ)
    (hin : 0 < inS) (hhs : ∀ h ∈ hs, 0 < h) (hout : 0 < outS) :
    (input.length = inS →
        ∃ out, (NeuralNet.new inS hs outS).feed_forward input = some out)
      ∧ (input.length ≠ inS →
          (NeuralNet.new inS hs outS).feed_forward input = none) := by
  constructor
  · intro hlen
    exact ⟨_, feed_forward_new inS outS hs input hlen⟩
  · intro hlen
    obtain ⟨w0, rest, hW, hcols⟩ := new_weights_head inS outS hs
    have hfrom : Matrix.fromList input.length 1 input = .ok (colMat input) :=
      Matrix.fromList_ok input.length 1 input (Nat.mul_one _)
    rw [NeuralNet.feed_forward, hfrom, toOption_ok, hW]
    simp only [List.head?_cons, Option.pure_def, Option.bind_eq_bind,
      Option.some_bind]
    rw [Matrix.mult_error w0 (colMat input)
      (by rw [hcols, colMat_rows]; exact fun he => hlen he.symm)]
    rfl

/-- Witness for C10: instantiates the theorem on the network `(2, [3], 1)`
with the wrong-length input `[1, 2, 3]`, whose multiplication aborts. -/
theorem C10_unwrap_safety_witness :
    ((0 < 2) ∧ (∀ h ∈ ([3] : List ℕ), 0 < h) ∧ (0 < 1))
      ∧ ((([1, 2, 3] : List ℝ).length = 2 →
            ∃ out, (NeuralNet.new 2 [3] 1).feed_forward [1, 2, 3] = some out)
          ∧ (([1, 2, 3] : List ℝ).length ≠ 2 →
              (NeuralNet.new 2 [3] 1).feed_forward [1, 2, 3] = none)) :=
  ⟨⟨by decide, by decide, by decide⟩,
    C10_unwrap_safety 2 1 [3] [1, 2, 3] (by decide) (by decide) (by decide)⟩

end NeuralNetRs
